import Mathlib

/-!
Verification development for the grpc-hot-mock server.

This file gives a shallow embedding, in Lean 4, of the parts of the
repository that the checked properties talk about:

* the unknown-method dispatch handler (`pkg/server/grpc/handler.go`),
* the stream interceptor and its history recording
  (`pkg/server/grpc/interceptor.go`),
* the descriptor registry (ingest / compile / register),
* the reflection service (`pkg/reflection/server_reflection_v1.go`).

Pure Go functions become Lean functions.  Calls into external libraries
(the gRPC transport, protojson, the protobuf compiler) are modelled as
explicit inputs: the outcome of each external call made by a code path is a
field of an environment record, so the embedded function is a function of
the code-visible state plus those outcomes.  Effects performed on a stream
(receiving, sleeping, sending headers or messages, delegating to the
proxy) are returned as an explicit trace.
-/

/-! ## gRPC status codes (google.golang.org/grpc/codes) used by the code -/

def codeCanceled : Int := 1

def codeNotFound : Int := 5

def codeUnimplemented : Int := 12

def codeInternal : Int := 13

/-! ## Data model

`MockConfig` mirrors `pkg/mocks/type.go`.  The `mockResponse` field is an
untyped JSON object (`map[string]interface{}` in Go); its entries are kept
as rendered key/value text because the only thing the handler does with it
is hand it to the external `json.Marshal` / `protojson.Unmarshal` pair,
whose outcome is modelled in the handler environment. -/

structure MockConfig where
  service : String
  method : String
  responseType : String
  mockResponse : List (String × String)
  grpcStatus : Int
  errorString : String
  headers : List (String × String)
  delayMs : Int
deriving DecidableEq, Repr

/-- A linked method descriptor (`protoreflect.MethodDescriptor`): the name of
the method and the full names of its input and output message types.  The
input/output type names make two descriptors distinguishable when a batch
redefines a method. -/
structure MethodDesc where
  name : String
  inputType : String
  outputType : String
deriving DecidableEq, Repr

/-- A linked message descriptor (`protoreflect.MessageDescriptor`): the fully
qualified name plus the field names, which distinguish two compiled versions
of a message with the same full name. -/
structure MessageDesc where
  fullName : String
  fieldNames : List String
deriving DecidableEq, Repr

/-- A service descriptor: full name and the methods it declares. -/
structure ServiceDesc where
  name : String
  methods : List MethodDesc
deriving DecidableEq, Repr

/-- A linked file descriptor (`protoreflect.FileDescriptor`): import path,
package, top-level messages and services. -/
structure FileDesc where
  path : String
  pkg : String
  messages : List MessageDesc
  services : List ServiceDesc
deriving DecidableEq, Repr

/-! ## The unknown-method dispatch handler (`pkg/server/grpc/handler.go`)

The handler body interacts with the incoming stream and with the proxy.
Each such interaction is recorded in a trace of `Effect`s, and the outcomes
of the external calls the handler makes are supplied by a `HandlerEnv`:
`none` means the call succeeded, `some e` that it returned error text `e`.
The environment also carries whether the incoming stream context is
cancelled (the handler can observe it through `stream.Context()`), and
whether the stream value is the interceptor's `*wrappedServerStream`. -/

structure HandlerEnv where
  recvError : Option String
  sendHeaderError : Option String
  protojsonError : Option String
  sendMsgError : Option String
  ctxCancelled : Bool
  isWrappedStream : Bool
deriving DecidableEq, Repr

/-- Observable actions the handler performs on the stream or the proxy. -/
inductive Effect where
  | recvMsg : Effect
  | sleep (ms : Int) : Effect
  | sendHeader (headers : List (String × String)) : Effect
  | sendMsg : Effect
  | setProxified : Effect
  | proxyHandle : Effect
deriving DecidableEq, Repr

/-- What the handler returns: `ok` is a nil error, `statusErr` a
`status.Errorf` value, `rawErr` an error returned unwrapped (from
`SendHeader` or `SendMsg`), `proxyDelegated` the result of `p.Handle`, and
`nilPanic` the run-time panic of calling `Input()` on a nil
`MethodDescriptor` interface value. -/
inductive HandlerResult where
  | ok : HandlerResult
  | statusErr (code : Int) (msg : String) : HandlerResult
  | rawErr (msg : String) : HandlerResult
  | proxyDelegated : HandlerResult
  | nilPanic : HandlerResult
deriving DecidableEq, Repr

/-- Lines 77-90 of handler.go: the configured-status check, then the
dynamic response construction (`protojson.Unmarshal`) and the final
`stream.SendMsg`. -/
def handlerStatusStep (mc : MockConfig) (env : HandlerEnv) (trace : List Effect) :
    List Effect × HandlerResult :=
  if mc.grpcStatus ≠ 0 then
    (trace, .statusErr mc.grpcStatus mc.errorString)
  else
    match env.protojsonError with
    | some e => (trace, .statusErr codeInternal ("json→message: " ++ e))
    | none =>
      match env.sendMsgError with
      | some e => (trace ++ [Effect.sendMsg], .rawErr e)
      | none => (trace ++ [Effect.sendMsg], .ok)

/-- Lines 71-75 of handler.go: send the mock's headers when non-empty; a
`SendHeader` error is returned as-is. -/
def handlerHeaderStep (mc : MockConfig) (env : HandlerEnv) (trace : List Effect) :
    List Effect × HandlerResult :=
  if 0 < mc.headers.length then
    match env.sendHeaderError with
    | some e => (trace ++ [Effect.sendHeader mc.headers], .rawErr e)
    | none => handlerStatusStep mc env (trace ++ [Effect.sendHeader mc.headers])
  else handlerStatusStep mc env trace

/-- Lines 67-69 of handler.go: `if mc.DelayMs > 0 { time.Sleep(...) }`.
`time.Sleep` blocks unconditionally; the stream context
(`env.ctxCancelled`) is not consulted. -/
def handlerDelayStep (mc : MockConfig) (env : HandlerEnv) (trace : List Effect) :
    List Effect × HandlerResult :=
  if 0 < mc.delayMs then handlerHeaderStep mc env (trace ++ [Effect.sleep mc.delayMs])
  else handlerHeaderStep mc env trace

/-- The closure returned by `Handler` in handler.go, as a function of the
two registry lookups it performs, the proxy presence (`p == nil` in Go is
`proxyConfigured = false`), the per-call environment, and the full method
path read from the stream.  The unused `historyRegistry` parameter of the
Go constructor is omitted. -/
def Handler (mockRegistry : String → Option MockConfig)
    (descriptorRegistry : String → Option MethodDesc)
    (proxyConfigured : Bool) (env : HandlerEnv) (fullMethod : String) :
    List Effect × HandlerResult :=
  let methodDescriptor := descriptorRegistry fullMethod
  if methodDescriptor = none ∧ proxyConfigured = false then
    ([], .statusErr codeUnimplemented
      ("Method descriptor for " ++ fullMethod ++
        " doesn't exist on registry and proxy isn't enabled"))
  else
    match mockRegistry fullMethod with
    | none =>
      if proxyConfigured = false then
        ([], .statusErr codeUnimplemented
          ("No mock found for " ++ fullMethod ++ " and proxy isn't enabled"))
      else
        ((if env.isWrappedStream then [Effect.setProxified] else []) ++ [Effect.proxyHandle],
          .proxyDelegated)
    | some mc =>
      -- line 59: dynamicpb.NewMessage(methodDescriptor.Input()) — with a
      -- missing descriptor this dereferences a nil interface value.
      match methodDescriptor with
      | none => ([], .nilPanic)
      | some _ =>
        match env.recvError with
        | some e => ([Effect.recvMsg], .statusErr codeInternal ("failed to receive message: " ++ e))
        | none => handlerDelayStep mc env [Effect.recvMsg]

/-! ## Concrete fixtures used to evaluate the handler -/

def sayHelloPath : String := "/example.Greeter/SayHello"

def greeterMethodDesc : MethodDesc :=
  { name := "SayHello", inputType := "example.HelloRequest",
    outputType := "example.HelloReply" }

def envOk : HandlerEnv :=
  { recvError := none, sendHeaderError := none, protojsonError := none,
    sendMsgError := none, ctxCancelled := false, isWrappedStream := true }

def mcDelay : MockConfig :=
  { service := "example.Greeter", method := "SayHello", responseType := "",
    mockResponse := [("message", "Hello from mock")], grpcStatus := 0,
    errorString := "", headers := [], delayMs := 100 }

def mcStatus : MockConfig :=
  { service := "example.Greeter", method := "SayHello", responseType := "",
    mockResponse := [], grpcStatus := 7, errorString := "nope",
    headers := [], delayMs := 0 }

def mockRegDelay : String → Option MockConfig :=
  fun k => if k = sayHelloPath then some mcDelay else none

def mockRegStatus : String → Option MockConfig :=
  fun k => if k = sayHelloPath then some mcStatus else none

def descRegGreeter : String → Option MethodDesc :=
  fun k => if k = sayHelloPath then some greeterMethodDesc else none

def descRegEmpty : String → Option MethodDesc := fun _ => none

example : Handler mockRegDelay descRegGreeter false envOk sayHelloPath =
    ([Effect.recvMsg, Effect.sleep 100, Effect.sendMsg], .ok) := by decide

example : Handler mockRegDelay descRegEmpty true envOk sayHelloPath = ([], .nilPanic) := by
  decide

/-! ## Lemmas about the mock-path steps -/

theorem handlerStatusStep_of_status_ne_zero (mc : MockConfig) (env : HandlerEnv)
    (trace : List Effect) (h : mc.grpcStatus ≠ 0) :
    handlerStatusStep mc env trace = (trace, .statusErr mc.grpcStatus mc.errorString) := by
  simp [handlerStatusStep, h]

theorem handlerHeaderStep_of_status_ne_zero (mc : MockConfig) (env : HandlerEnv)
    (trace : List Effect) (h : mc.grpcStatus ≠ 0) (hh : env.sendHeaderError = none) :
    handlerHeaderStep mc env trace =
      (trace ++ (if 0 < mc.headers.length then [Effect.sendHeader mc.headers] else []),
        .statusErr mc.grpcStatus mc.errorString) := by
  by_cases hl : 0 < mc.headers.length <;>
    simp [handlerHeaderStep, hh, hl, handlerStatusStep_of_status_ne_zero _ _ _ h]

theorem handlerDelayStep_of_status_ne_zero (mc : MockConfig) (env : HandlerEnv)
    (trace : List Effect) (h : mc.grpcStatus ≠ 0) (hh : env.sendHeaderError = none) :
    handlerDelayStep mc env trace =
      (trace ++ (if 0 < mc.delayMs then [Effect.sleep mc.delayMs] else []) ++
        (if 0 < mc.headers.length then [Effect.sendHeader mc.headers] else []),
        .statusErr mc.grpcStatus mc.errorString) := by
  by_cases hd : 0 < mc.delayMs <;>
    simp [handlerDelayStep, hd, handlerHeaderStep_of_status_ne_zero _ _ _ h hh]

theorem handlerStatusStep_ne_nilPanic (mc : MockConfig) (env : HandlerEnv)
    (trace : List Effect) : (handlerStatusStep mc env trace).2 ≠ .nilPanic := by
  by_cases h : mc.grpcStatus ≠ 0 <;>
    cases hp : env.protojsonError <;>
    cases hs : env.sendMsgError <;>
    simp [handlerStatusStep, h, hp, hs]

theorem handlerHeaderStep_ne_nilPanic (mc : MockConfig) (env : HandlerEnv)
    (trace : List Effect) : (handlerHeaderStep mc env trace).2 ≠ .nilPanic := by
  by_cases hl : 0 < mc.headers.length <;>
    cases hh : env.sendHeaderError <;>
    simp [handlerHeaderStep, hl, hh, handlerStatusStep_ne_nilPanic]

theorem handlerDelayStep_ne_nilPanic (mc : MockConfig) (env : HandlerEnv)
    (trace : List Effect) : (handlerDelayStep mc env trace).2 ≠ .nilPanic := by
  by_cases hd : 0 < mc.delayMs <;>
    simp [handlerDelayStep, hd, handlerHeaderStep_ne_nilPanic]

/-- C1.  Dispatcher fallback behaviour: a missing method descriptor with no
proxy aborts with UNIMPLEMENTED; a missing mock with no proxy aborts with
UNIMPLEMENTED; a missing mock with a proxy configured marks the wrapped
stream proxified and delegates the stream to the proxy engine. -/
theorem handler_dispatch_routing (mockRegistry : String → Option MockConfig)
    (descriptorRegistry : String → Option MethodDesc) (env : HandlerEnv)
    (fullMethod : String) :
    (descriptorRegistry fullMethod = none →
      Handler mockRegistry descriptorRegistry false env fullMethod =
        ([], .statusErr codeUnimplemented
          ("Method descriptor for " ++ fullMethod ++
            " doesn't exist on registry and proxy isn't enabled"))) ∧
    (mockRegistry fullMethod = none →
      ∃ msg, Handler mockRegistry descriptorRegistry false env fullMethod =
        ([], .statusErr codeUnimplemented msg)) ∧
    (mockRegistry fullMethod = none → env.isWrappedStream = true →
      Handler mockRegistry descriptorRegistry true env fullMethod =
        ([Effect.setProxified, Effect.proxyHandle], .proxyDelegated)) := by
  refine ⟨fun h => by simp [Handler, h], fun h => ?_, fun h hw => ?_⟩
  · cases hd : descriptorRegistry fullMethod with
    | none =>
      exact ⟨"Method descriptor for " ++ fullMethod ++
        " doesn't exist on registry and proxy isn't enabled", by simp [Handler, hd]⟩
    | some md =>
      exact ⟨"No mock found for " ++ fullMethod ++ " and proxy isn't enabled",
        by simp [Handler, hd, h]⟩
  · cases hd : descriptorRegistry fullMethod <;> simp [Handler, hd, h, hw]

/-- C2.  The mock delay is a plain blocking `time.Sleep`: the handler's
output never depends on whether the stream context is cancelled, and on a
call with a 100 ms delay and a cancelled context it still performs the full
sleep and answers the mock response instead of returning CANCELLED. -/
theorem handler_delay_is_blocking :
    (∀ (mockRegistry : String → Option MockConfig)
      (descriptorRegistry : String → Option MethodDesc)
      (proxyConfigured : Bool) (env : HandlerEnv) (fullMethod : String) (b : Bool),
        Handler mockRegistry descriptorRegistry proxyConfigured
          { env with ctxCancelled := b } fullMethod =
        Handler mockRegistry descriptorRegistry proxyConfigured env fullMethod) ∧
    Handler mockRegDelay descRegGreeter false
        { envOk with ctxCancelled := true } sayHelloPath =
      ([Effect.recvMsg, Effect.sleep 100, Effect.sendMsg], .ok) ∧
    (∀ msg, (Handler mockRegDelay descRegGreeter false
        { envOk with ctxCancelled := true } sayHelloPath).2 ≠
      .statusErr codeCanceled msg) := by
  refine ⟨fun _ _ _ env _ _ => by cases env; rfl, by decide, fun msg h => ?_⟩
  have h2 : (Handler mockRegDelay descRegGreeter false
      { envOk with ctxCancelled := true } sayHelloPath).2 = .ok := by decide
  rw [h2] at h
  exact HandlerResult.noConfusion h

/-- C5.  A mock whose `grpcStatus` is non-zero terminates the call, after
the receive and any delay and headers, with exactly that status code and
`errorString`, and never sends a response message. -/
theorem handler_mock_status_terminates (mockRegistry : String → Option MockConfig)
    (descriptorRegistry : String → Option MethodDesc) (proxyConfigured : Bool)
    (env : HandlerEnv) (fullMethod : String) (mc : MockConfig) (md : MethodDesc)
    (hmock : mockRegistry fullMethod = some mc)
    (hdesc : descriptorRegistry fullMethod = some md)
    (hstatus : mc.grpcStatus ≠ 0)
    (hrecv : env.recvError = none)
    (hheader : env.sendHeaderError = none) :
    (Handler mockRegistry descriptorRegistry proxyConfigured env fullMethod).2 =
      .statusErr mc.grpcStatus mc.errorString ∧
    Effect.sendMsg ∉
      (Handler mockRegistry descriptorRegistry proxyConfigured env fullMethod).1 := by
  have hrun : Handler mockRegistry descriptorRegistry proxyConfigured env fullMethod =
      handlerDelayStep mc env [Effect.recvMsg] := by
    simp [Handler, hmock, hdesc, hrecv]
  rw [hrun, handlerDelayStep_of_status_ne_zero _ _ _ hstatus hheader]
  refine ⟨rfl, ?_⟩
  by_cases hd : 0 < mc.delayMs <;> by_cases hl : 0 < mc.headers.length <;>
    simp [hd, hl]

/-- Witness for C5 at the fixture mock with status 7 and message "nope". -/
theorem handler_mock_status_terminates_witness :
    (Handler mockRegStatus descRegGreeter false envOk sayHelloPath).2 =
      .statusErr mcStatus.grpcStatus mcStatus.errorString ∧
    Effect.sendMsg ∉ (Handler mockRegStatus descRegGreeter false envOk sayHelloPath).1 :=
  handler_mock_status_terminates mockRegStatus descRegGreeter false envOk sayHelloPath
    mcStatus greeterMethodDesc (by decide) (by decide) (by decide) rfl rfl

/-- C10.  The mock path is safe exactly under the precondition that a
method descriptor for the call path is registered: with a descriptor
present the handler never reaches the nil dereference, and the
configuration "mock registered, no descriptor, proxy configured" passes
the descriptor-missing check and reaches the nil `methodDescriptor.Input()`
dereference in the mock path. -/
theorem handler_mock_path_descriptor_precondition :
    (∀ (mockRegistry : String → Option MockConfig)
      (descriptorRegistry : String → Option MethodDesc)
      (proxyConfigured : Bool) (env : HandlerEnv) (fullMethod : String) (md : MethodDesc),
        descriptorRegistry fullMethod = some md →
        (Handler mockRegistry descriptorRegistry proxyConfigured env fullMethod).2 ≠
          .nilPanic) ∧
    mockRegDelay sayHelloPath = some mcDelay ∧
    descRegEmpty sayHelloPath = none ∧
    Handler mockRegDelay descRegEmpty true envOk sayHelloPath = ([], .nilPanic) := by
  refine ⟨fun m d p env f md hdesc => ?_, by decide, rfl, by decide⟩
  cases hm : m f with
  | none =>
    by_cases hp : p = false <;> simp [Handler, hm, hdesc, hp]
  | some mc =>
    cases hr : env.recvError <;>
      simp [Handler, hm, hdesc, hr, handlerDelayStep_ne_nilPanic]

/-! ## Stream interceptor (`pkg/server/grpc/interceptor.go`)

`recordMessage` inspects the payload value handed to `SendMsg`/`RecvMsg`.
The three Go cases (`proto.Message`, `[]byte`, default) become the three
`Payload` constructors; outcomes of the external encoding calls performed
in each case (`protojson.Marshal`, `proto.Unmarshal`, `json.Marshal`,
`json.Unmarshal`) are carried as data on the payload value.  The Go
`Message.Timestamp` field (`time.Now()`) is wall-clock time and is not
modelled. -/

structure ProtoMsgVal where
  protojsonMarshal : Option String
  isDynamic : Bool
  jsonUnmarshalOk : Bool
deriving DecidableEq, Repr

/-- The result of decoding a raw frame against a descriptor:
`proto.Unmarshal` into a dynamic message then `protojson.Marshal`; `none`
when either step fails. -/
structure DecodedView where
  text : String
  jsonUnmarshalOk : Bool
deriving DecidableEq, Repr

structure BytesVal where
  raw : List Nat
  decodeAsInput : Option DecodedView
  decodeAsOutput : Option DecodedView
deriving DecidableEq, Repr

structure OtherVal where
  jsonMarshal : Option String
deriving DecidableEq, Repr

inductive Payload where
  | protoMsg (pm : ProtoMsgVal)
  | rawBytes (bv : BytesVal)
  | other (ov : OtherVal)
deriving DecidableEq, Repr

/-- The `payload` field of a history `Message` (`interface{}` in Go):
either a JSON map decoded from rendered text, or the message value itself. -/
inductive PayloadObj where
  | jsonMap (text : String)
  | protoValue (pm : ProtoMsgVal)
  | otherValue (ov : OtherVal)
deriving DecidableEq, Repr

/-- A history `Message` (`pkg/history`).  The wall-clock `Timestamp` field
is not modelled. -/
structure Message where
  direction : String
  recognized : Bool
  proxified : Bool
  payloadString : String
  payload : Option PayloadObj
deriving DecidableEq, Repr

/-- Models Go's `encoding/base64` StdEncoding rendering of raw bytes: an
external standard-library encoder, abstracted as an injective rendering of
the byte list. -/
def encodeBase64 (b : List Nat) : String := toString b

/-- The state the interceptor keeps alongside the wrapped stream: the
history record's message list, the proxified flag and the method
descriptor looked up at interception time. -/
structure WrappedServerStream where
  historyMessages : List Message
  proxified : Bool
  methodDescriptor : Option MethodDesc
deriving DecidableEq, Repr

/-- The switch in `recordMessage` (interceptor.go lines 87-147) computing
`(payloadStr, payloadObj, recognized)`. -/
def renderPayload (methodDescriptor : Option MethodDesc) (direction : String)
    (payload : Payload) : String × Option PayloadObj × Bool :=
  match payload with
  | .protoMsg pm =>
    match pm.protojsonMarshal with
    | none => ("<invalid proto>", none, false)
    | some b =>
      if pm.isDynamic then
        (b, if pm.jsonUnmarshalOk then some (.jsonMap b) else none, true)
      else
        (b, some (.protoValue pm), true)
  | .rawBytes bv =>
    match methodDescriptor with
    | some _ =>
      match (if direction = "recv" then bv.decodeAsInput else bv.decodeAsOutput) with
      | some d => (d.text, if d.jsonUnmarshalOk then some (.jsonMap d.text) else none, true)
      | none => (encodeBase64 bv.raw, none, false)
    | none => (encodeBase64 bv.raw, none, false)
  | .other ov =>
    match ov.jsonMarshal with
    | some b => (b, some (.otherValue ov), true)
    | none => ("<invalid json>", none, false)

/-- `recordMessage`: every branch of the switch falls through to the single
append at the end of the function. -/
def recordMessage (w : WrappedServerStream) (direction : String) (payload : Payload) :
    WrappedServerStream :=
  let r := renderPayload w.methodDescriptor direction payload
  { w with
    historyMessages := w.historyMessages ++
      [{ direction := direction, recognized := r.2.2, proxified := w.proxified,
         payloadString := r.1, payload := r.2.1 }] }

/-- `wrappedServerStream.SendMsg`: records first, then performs the
underlying send, whose outcome is `underlyingSend`. -/
def wrappedSendMsg (w : WrappedServerStream) (m : Payload)
    (underlyingSend : Option String) : WrappedServerStream × Option String :=
  (recordMessage w "send" m, underlyingSend)

/-- `wrappedServerStream.RecvMsg`: performs the underlying receive and
records only when it returned nil. -/
def wrappedRecvMsg (w : WrappedServerStream) (m : Payload)
    (underlyingRecv : Option String) : WrappedServerStream × Option String :=
  match underlyingRecv with
  | none => (recordMessage w "recv" m, none)
  | some e => (w, some e)

theorem recordMessage_length (w : WrappedServerStream) (direction : String)
    (payload : Payload) :
    (recordMessage w direction payload).historyMessages.length =
      w.historyMessages.length + 1 := by
  simp [recordMessage]

/-! ## Fixtures for the interceptor -/

def emptyWrappedStream : WrappedServerStream :=
  { historyMessages := [], proxified := false, methodDescriptor := none }

def dynReplyPayload : Payload :=
  .protoMsg { protojsonMarshal := some "\x7b\x7d", isDynamic := true,
              jsonUnmarshalOk := true }

/-- Counterexample to C4 as stated: an underlying `SendMsg` that fails with
an error still appends a history `Message` (it is recorded before the send
is attempted). -/
theorem wrappedSendMsg_error_still_records :
    (wrappedSendMsg emptyWrappedStream dynReplyPayload
        (some "connection reset")).1.historyMessages.length = 1 ∧
    (wrappedSendMsg emptyWrappedStream dynReplyPayload
        (some "connection reset")).2 = some "connection reset" ∧
    ¬ (wrappedSendMsg emptyWrappedStream dynReplyPayload
        (some "connection reset")).1.historyMessages = [] := by
  refine ⟨rfl, rfl, by simp [wrappedSendMsg, recordMessage]⟩

/-- C4 (amended).  A `RecvMsg` appends a `Message` exactly when the
underlying receive succeeds; a `SendMsg` appends a `Message`
unconditionally, before the underlying send runs, whether or not the send
then fails. -/
theorem wrapped_stream_recording (w : WrappedServerStream) (m : Payload)
    (r : Option String) (e : String) :
    (wrappedRecvMsg w m none).1.historyMessages.length =
      w.historyMessages.length + 1 ∧
    (wrappedRecvMsg w m (some e)).1 = w ∧
    (wrappedRecvMsg w m (some e)).2 = some e ∧
    (wrappedSendMsg w m r).1.historyMessages.length =
      w.historyMessages.length + 1 ∧
    (wrappedSendMsg w m r).2 = r := by
  exact ⟨recordMessage_length w "recv" m, rfl, rfl,
    recordMessage_length w "send" m, rfl⟩

/-! ## Descriptor registry (`pkg/reflection`, `defaultDescriptorRegistry`)

The registry's two descriptor maps are Go maps used only through insert and
lookup, so they are embedded as functions `String → Option _`; the source
map and the ingest-order list are embedded directly.  The protobuf compiler
(`protocompile`) is an external library: `CompileAndRegister` takes it as a
function of what `Compile` feeds it — the in-memory source accessor and the
preserved ingest order. -/

structure RegistryState where
  protoFiles : String → Option String
  protoFileNames : List String
  allFileDescriptors : List FileDesc
  messageDescriptorRegistry : String → Option MessageDesc
  methodDescriptorRegistry : String → Option MethodDesc

/-- `NewDefaultDescriptorRegistry` preloads the file list with the built-in
well-known types ranged from the global registry. -/
def initialRegistryState (wellKnown : List FileDesc) : RegistryState :=
  { protoFiles := fun _ => none
    protoFileNames := []
    allFileDescriptors := wellKnown
    messageDescriptorRegistry := fun _ => none
    methodDescriptorRegistry := fun _ => none }

/-- `IngestProtoFile`: store/overwrite the source under its filename and
append the filename to the ingest-order list unless already present. -/
def IngestProtoFile (st : RegistryState) (filename content : String) : RegistryState :=
  { st with
    protoFiles := fun k => if k = filename then some content else st.protoFiles k
    protoFileNames :=
      if filename ∈ st.protoFileNames then st.protoFileNames
      else st.protoFileNames ++ [filename] }

/-- The method-path key `fmt.Sprintf("/%s/%s", svc.FullName(), method.Name())`. -/
def fullMethodName (svcName methName : String) : String :=
  "/" ++ svcName ++ "/" ++ methName

/-- The message loop of `RegisterFiles`: record each top-level message under
its full name only when no entry exists yet. -/
def registerFileMessages (m : String → Option MessageDesc) (msgs : List MessageDesc) :
    String → Option MessageDesc :=
  msgs.foldl
    (fun m md =>
      if (m md.fullName).isSome then m
      else fun k => if k = md.fullName then some md else m k)
    m

/-- The service×method loop of `RegisterFiles`: record each method under its
full method path, unconditionally overwriting. -/
def registerFileMethods (m : String → Option MethodDesc) (svcs : List ServiceDesc) :
    String → Option MethodDesc :=
  svcs.foldl
    (fun m svc =>
      svc.methods.foldl
        (fun m meth =>
          fun k => if k = fullMethodName svc.name meth.name then some meth else m k)
        m)
    m

/-- One iteration of the `RegisterFiles` loop body for a produced file. -/
def registerFile (st : RegistryState) (fd : FileDesc) : RegistryState :=
  { st with
    allFileDescriptors := st.allFileDescriptors ++ [fd]
    messageDescriptorRegistry := registerFileMessages st.messageDescriptorRegistry fd.messages
    methodDescriptorRegistry := registerFileMethods st.methodDescriptorRegistry fd.services }

/-- `RegisterFiles` walks the newly produced file list. -/
def RegisterFiles (st : RegistryState) (fds : List FileDesc) : RegistryState :=
  fds.foldl registerFile st

structure CompileError where
  file : String
  message : String
deriving DecidableEq, Repr

/-- `CompileAndRegister`: run `Compile` (the external compiler over the
in-memory sources in ingest order) and, only on success, register the
produced files.  The Go method returns the wrapped error; here the possibly
updated state is returned alongside it. -/
def CompileAndRegister
    (compiler : (String → Option String) → List String → Except CompileError (List FileDesc))
    (st : RegistryState) : RegistryState × Option CompileError :=
  match compiler st.protoFiles st.protoFileNames with
  | .error e => (st, some e)
  | .ok fds => (RegisterFiles st fds, none)

/-! ## Registry fixtures -/

def helloRequestDesc : MessageDesc :=
  { fullName := "example.HelloRequest", fieldNames := ["name"] }

def helloReplyDesc : MessageDesc :=
  { fullName := "example.HelloReply", fieldNames := ["message"] }

def helloFile : FileDesc :=
  { path := "hello.proto", pkg := "example",
    messages := [helloRequestDesc, helloReplyDesc],
    services := [{ name := "example.Greeter", methods := [greeterMethodDesc] }] }

/-- Counterexample to C3 as stated: registering the batch produced from the
same source file twice leaves two entries with that path in the global
file-descriptor list, not one — the append in `RegisterFiles` is
unconditional. -/
theorem registerFiles_duplicate_path_counterexample :
    ((RegisterFiles (RegisterFiles (initialRegistryState []) [helloFile])
        [helloFile]).allFileDescriptors.countP
          (fun fd => fd.path == "hello.proto") = 2) ∧
    ¬ ((RegisterFiles (RegisterFiles (initialRegistryState []) [helloFile])
        [helloFile]).allFileDescriptors.countP
          (fun fd => fd.path == "hello.proto") = 1) := by
  decide

/-- C3 (amended).  `RegisterFiles` appends every produced file descriptor
to the global file list unconditionally, with no duplicate-path check, so
registering the same compiled file twice leaves two entries for its path;
duplicate handling happens only in the message index (first-writer-wins)
and at reflection read time. -/
theorem registerFiles_appends_unconditionally (st : RegistryState) (fds : List FileDesc) :
    (RegisterFiles st fds).allFileDescriptors = st.allFileDescriptors ++ fds := by
  induction fds generalizing st with
  | nil => simp [RegisterFiles]
  | cons fd rest ih =>
    show (RegisterFiles (registerFile st fd) rest).allFileDescriptors = _
    rw [ih]
    simp [registerFile]

/-- C7.  A compile error leaves the registry untouched: the state after
`CompileAndRegister` is the state before it (file list, message map and
method map unmodified; every ingested source and the ingest-order list
retained), and the error is reported. -/
theorem compileAndRegister_error_preserves_state
    (compiler : (String → Option String) → List String → Except CompileError (List FileDesc))
    (st : RegistryState) (e : CompileError)
    (h : compiler st.protoFiles st.protoFileNames = .error e) :
    (CompileAndRegister compiler st).1 = st ∧
    (CompileAndRegister compiler st).2 = some e := by
  simp [CompileAndRegister, h]

def failingCompiler :
    (String → Option String) → List String → Except CompileError (List FileDesc) :=
  fun _ _ => .error { file := "bad.proto", message := "unexpected token" }

def helloSource : String :=
  "package example; message HelloRequest ... service Greeter ..."

def ingestedState : RegistryState :=
  IngestProtoFile
    (IngestProtoFile (initialRegistryState []) "hello.proto" helloSource)
    "bad.proto" "not a proto"

/-- Witness for C7: a state with two ingested sources (one malformed) and a
compiler that rejects the batch; both sources and the ingest order survive
the failed compile and the indices are untouched. -/
theorem compileAndRegister_error_preserves_state_witness :
    (CompileAndRegister failingCompiler ingestedState).1 = ingestedState ∧
    (CompileAndRegister failingCompiler ingestedState).2 =
      some { file := "bad.proto", message := "unexpected token" } ∧
    (CompileAndRegister failingCompiler ingestedState).1.protoFiles "bad.proto" =
      some "not a proto" ∧
    (CompileAndRegister failingCompiler ingestedState).1.protoFiles "hello.proto" =
      some helloSource ∧
    (CompileAndRegister failingCompiler ingestedState).1.protoFileNames =
      ["hello.proto", "bad.proto"] := by
  have h := compileAndRegister_error_preserves_state failingCompiler ingestedState
    { file := "bad.proto", message := "unexpected token" } rfl
  refine ⟨h.1, h.2, ?_, ?_, ?_⟩ <;> rw [h.1] <;> decide

/-! ## Index semantics of `RegisterFiles` -/

/-- The method-path/descriptor pairs produced by the service×method loop of
one file, in loop order. -/
def svcMethodPairs (svcs : List ServiceDesc) : List (String × MethodDesc) :=
  svcs.flatMap (fun svc =>
    svc.methods.map (fun meth => (fullMethodName svc.name meth.name, meth)))

/-- Unconditional map assignment over a pair list, in order. -/
def assignAll (m : String → Option MethodDesc) (pairs : List (String × MethodDesc)) :
    String → Option MethodDesc :=
  pairs.foldl (fun m p => fun k => if k = p.1 then some p.2 else m k) m

/-- All top-level messages of a batch, in registration order. -/
def batchMessages (fds : List FileDesc) : List MessageDesc :=
  fds.flatMap (fun fd => fd.messages)

/-- All method-path/descriptor pairs of a batch, in registration order. -/
def batchMethods (fds : List FileDesc) : List (String × MethodDesc) :=
  fds.flatMap (fun fd => svcMethodPairs fd.services)

theorem option_map_or {α β : Type} (f : α → β) (a b : Option α) :
    (a.or b).map f = (a.map f).or (b.map f) := by
  cases a <;> rfl

theorem registerFileMessages_lookup (m : String → Option MessageDesc)
    (msgs : List MessageDesc) (name : String) :
    registerFileMessages m msgs name =
      (m name).or (msgs.find? (fun md => md.fullName == name)) := by
  induction msgs generalizing m with
  | nil => simp [registerFileMessages]
  | cons a rest ih =>
    show registerFileMessages
        (if (m a.fullName).isSome then m
         else fun k => if k = a.fullName then some a else m k) rest name = _
    by_cases hs : (m a.fullName).isSome
    · rw [if_pos hs, ih]
      by_cases he : name = a.fullName
      · obtain ⟨x, hx⟩ := Option.isSome_iff_exists.mp hs
        subst he
        simp [hx]
      · have : (a.fullName == name) = false := by
          simp [beq_iff_eq]; exact fun h => he h.symm
        simp [List.find?_cons, this]
    · rw [if_neg hs, ih]
      have hnone : m a.fullName = none := Option.not_isSome_iff_eq_none.mp hs
      by_cases he : name = a.fullName
      · subst he
        simp [hnone, List.find?_cons]
      · have hb : (a.fullName == name) = false := by
          simp [beq_iff_eq]; exact fun h => he h.symm
        simp [he, List.find?_cons, hb]

theorem registerFileMethods_eq_assignAll (m : String → Option MethodDesc)
    (svcs : List ServiceDesc) :
    registerFileMethods m svcs = assignAll m (svcMethodPairs svcs) := by
  induction svcs generalizing m with
  | nil => rfl
  | cons svc rest ih =>
    show registerFileMethods
        (svc.methods.foldl
          (fun m meth =>
            fun k => if k = fullMethodName svc.name meth.name then some meth else m k) m)
        rest = _
    rw [ih]
    have hpairs : svcMethodPairs (svc :: rest) =
        svc.methods.map (fun meth => (fullMethodName svc.name meth.name, meth)) ++
          svcMethodPairs rest := by
      simp [svcMethodPairs]
    rw [hpairs]
    unfold assignAll
    rw [List.foldl_append, List.foldl_map]

theorem assignAll_lookup (m : String → Option MethodDesc)
    (pairs : List (String × MethodDesc)) (key : String) :
    assignAll m pairs key =
      ((pairs.reverse.find? (fun p => p.1 == key)).map Prod.snd).or (m key) := by
  induction pairs generalizing m with
  | nil => simp [assignAll]
  | cons p rest ih =>
    show assignAll (fun k => if k = p.1 then some p.2 else m k) rest key = _
    rw [ih]
    have hrev : (p :: rest).reverse = rest.reverse ++ [p] := by simp
    rw [hrev, List.find?_append, option_map_or, Option.or_assoc]
    congr 1
    by_cases he : key = p.1
    · subst he
      simp
    · have hb : (p.1 == key) = false := by
        simp [beq_iff_eq]; exact fun h => he h.symm
      simp [he, hb]

theorem registerFiles_message_lookup (st : RegistryState) (fds : List FileDesc)
    (name : String) :
    (RegisterFiles st fds).messageDescriptorRegistry name =
      (st.messageDescriptorRegistry name).or
        ((batchMessages fds).find? (fun md => md.fullName == name)) := by
  induction fds generalizing st with
  | nil => simp [RegisterFiles, batchMessages]
  | cons fd rest ih =>
    show (RegisterFiles (registerFile st fd) rest).messageDescriptorRegistry name = _
    rw [ih]
    have h1 : (registerFile st fd).messageDescriptorRegistry name =
        (st.messageDescriptorRegistry name).or
          (fd.messages.find? (fun md => md.fullName == name)) :=
      registerFileMessages_lookup _ _ _
    rw [h1, Option.or_assoc]
    have h2 : batchMessages (fd :: rest) = fd.messages ++ batchMessages rest := by
      simp [batchMessages]
    rw [h2, List.find?_append]

theorem registerFiles_method_lookup (st : RegistryState) (fds : List FileDesc)
    (key : String) :
    (RegisterFiles st fds).methodDescriptorRegistry key =
      (((batchMethods fds).reverse.find? (fun p => p.1 == key)).map Prod.snd).or
        (st.methodDescriptorRegistry key) := by
  induction fds generalizing st with
  | nil => simp [RegisterFiles, batchMethods]
  | cons fd rest ih =>
    show (RegisterFiles (registerFile st fd) rest).methodDescriptorRegistry key = _
    rw [ih]
    have h1 : (registerFile st fd).methodDescriptorRegistry key =
        (((svcMethodPairs fd.services).reverse.find? (fun p => p.1 == key)).map
          Prod.snd).or (st.methodDescriptorRegistry key) := by
      show registerFileMethods st.methodDescriptorRegistry fd.services key = _
      rw [registerFileMethods_eq_assignAll, assignAll_lookup]
    rw [h1]
    have h2 : (batchMethods (fd :: rest)).reverse =
        (batchMethods rest).reverse ++ (svcMethodPairs fd.services).reverse := by
      simp [batchMethods]
    rw [h2, List.find?_append, option_map_or, Option.or_assoc]

/-- C6.  During registration of a batch, the message index is
first-writer-wins — the entry for a full name is the pre-existing one if
any, else the first message with that name in batch order — while the
method index is last-writer-wins — the entry for a method path is the last
definition of that path in batch order, overriding any pre-existing one. -/
theorem registerFiles_index_semantics (st : RegistryState) (fds : List FileDesc)
    (name key : String) :
    (RegisterFiles st fds).messageDescriptorRegistry name =
      (st.messageDescriptorRegistry name).or
        ((batchMessages fds).find? (fun md => md.fullName == name)) ∧
    (RegisterFiles st fds).methodDescriptorRegistry key =
      (((batchMethods fds).reverse.find? (fun p => p.1 == key)).map Prod.snd).or
        (st.methodDescriptorRegistry key) :=
  ⟨registerFiles_message_lookup st fds name, registerFiles_method_lookup st fds key⟩

/-! ## Reflection service (`pkg/reflection/server_reflection_v1.go`)

`protodesc.ToFileDescriptorProto` and `proto.Marshal` are external library
calls: the descriptor proto of a file is modelled by the fields the claims
observe (its `name` is the file's path), and the canonical binary form is
modelled by an executable length-prefixed serializer with a proven decoding
inverse. -/

structure FileDescriptorProto where
  name : String
  messageNames : List String
  serviceNames : List String
deriving DecidableEq, Repr

/-- `protodesc.ToFileDescriptorProto`: the descriptor proto's `name` field
is the file's import path. -/
def toFileDescriptorProto (fd : FileDesc) : FileDescriptorProto :=
  { name := fd.path
    messageNames := fd.messages.map (fun md => md.fullName)
    serviceNames := fd.services.map (fun svc => svc.name) }

def encodeString (s : String) : List Nat :=
  s.data.length :: s.data.map Char.toNat

def decodeString : List Nat → Option (String × List Nat)
  | [] => none
  | n :: rest =>
    if n ≤ rest.length then
      some (String.mk ((rest.take n).map Char.ofNat), rest.drop n)
    else none

def encodeStrings (l : List String) : List Nat :=
  l.length :: l.flatMap encodeString

def decodeStringsAux : Nat → List Nat → Option (List String × List Nat)
  | 0, rest => some ([], rest)
  | k + 1, rest =>
    match decodeString rest with
    | none => none
    | some (s, rest') =>
      match decodeStringsAux k rest' with
      | none => none
      | some (ss, rest'') => some (s :: ss, rest'')

def decodeStrings (l : List Nat) : Option (List String × List Nat) :=
  match l with
  | [] => none
  | k :: rest => decodeStringsAux k rest

/-- `proto.Marshal` on a descriptor proto, modelled as the concatenation of
the serialized fields. -/
def protoMarshalFdp (p : FileDescriptorProto) : List Nat :=
  encodeString p.name ++ encodeStrings p.messageNames ++ encodeStrings p.serviceNames

/-- The descriptor-proto decoder inverse to `protoMarshalFdp`. -/
def protoUnmarshalFdp (b : List Nat) : Option FileDescriptorProto :=
  match decodeString b with
  | none => none
  | some (name, r1) =>
    match decodeStrings r1 with
    | none => none
    | some (ms, r2) =>
      match decodeStrings r2 with
      | none => none
      | some (ss, r3) =>
        if r3 = [] then some { name := name, messageNames := ms, serviceNames := ss }
        else none

/-- The reflection response variants the service produces.  The
`originalRequest` echo (the request value itself) is not modelled. -/
inductive MessageResponse where
  | listServicesResponse (service : List String)
  | fileDescriptorResponse (fileDescriptorProto : List (List Nat))
  | errorResponse (errorCode : Int) (errorMessage : String)
deriving DecidableEq, Repr

structure ServerReflectionResponse where
  validHost : String
  messageResponse : MessageResponse
deriving DecidableEq, Repr

/-- `errorResponse` helper of the service. -/
def errorResponse (host : String) (code : Int) (msg : String) : ServerReflectionResponse :=
  { validHost := host, messageResponse := .errorResponse code msg }

/-- `lookupFileDescriptorProtoBytes`: first file matching, serialized. -/
def lookupFileDescriptorProtoBytes (files : List FileDesc) (mtch : FileDesc → Bool) :
    Option (List Nat) :=
  match files.find? mtch with
  | some fd => some (protoMarshalFdp (toFileDescriptorProto fd))
  | none => none

/-- `buildFileByFilenameResponse`. -/
def buildFileByFilenameResponse (files : List FileDesc) (host filename : String) :
    ServerReflectionResponse :=
  match lookupFileDescriptorProtoBytes files (fun fd => fd.path == filename) with
  | none => errorResponse host codeNotFound "file not found"
  | some b =>
    { validHost := host, messageResponse := .fileDescriptorResponse [b] }

/-- The body of the loop in `buildListServicesResponse`: state is the
`seen` set and the accumulated service list. -/
def listServicesStep (st : List String × List String) (name : String) :
    List String × List String :=
  if name ∈ st.1 then st else (name :: st.1, st.2 ++ [name])

/-- `buildListServicesResponse`: walk every file descriptor, then every
service, recording each unseen full name. -/
def buildListServicesResponse (files : List FileDesc) (host : String) :
    ServerReflectionResponse :=
  let acc := files.foldl
    (fun st fd => (fd.services.map (fun svc => svc.name)).foldl listServicesStep st)
    ([], [])
  { validHost := host, messageResponse := .listServicesResponse acc.2 }

example :
    buildListServicesResponse [helloFile, helloFile] "h" =
      { validHost := "h", messageResponse := .listServicesResponse ["example.Greeter"] } := by
  decide

example :
    protoUnmarshalFdp (protoMarshalFdp (toFileDescriptorProto helloFile)) =
      some (toFileDescriptorProto helloFile) := by decide

/-! ## Round-trip of the modelled descriptor-proto serialization -/

theorem decodeString_encodeString (s : String) (t : List Nat) :
    decodeString (encodeString s ++ t) = some (s, t) := by
  show decodeString (s.data.length :: (s.data.map Char.toNat ++ t)) = _
  have hlen : s.data.length ≤ (s.data.map Char.toNat ++ t).length := by
    simp
  have hmaplen : (s.data.map Char.toNat).length = s.data.length := by simp
  rw [decodeString, if_pos hlen]
  rw [← hmaplen, List.take_left, List.drop_left]
  rw [List.map_map]
  have : (Char.ofNat ∘ Char.toNat) = id := funext fun c => Char.ofNat_toNat c
  rw [this, List.map_id]

theorem decodeStringsAux_encode (l : List String) (t : List Nat) :
    decodeStringsAux l.length (l.flatMap encodeString ++ t) = some (l, t) := by
  induction l generalizing t with
  | nil => rfl
  | cons s rest ih =>
    show decodeStringsAux (rest.length + 1)
        ((encodeString s ++ rest.flatMap encodeString) ++ t) = _
    rw [List.append_assoc]
    simp only [decodeStringsAux, decodeString_encodeString, ih]

theorem decodeStrings_encodeStrings (l : List String) (t : List Nat) :
    decodeStrings (encodeStrings l ++ t) = some (l, t) := by
  show decodeStrings (l.length :: (l.flatMap encodeString ++ t)) = _
  rw [decodeStrings, decodeStringsAux_encode]

theorem protoUnmarshalFdp_protoMarshalFdp (p : FileDescriptorProto) :
    protoUnmarshalFdp (protoMarshalFdp p) = some p := by
  have h3 : decodeStrings (encodeStrings p.serviceNames) = some (p.serviceNames, []) := by
    have h := decodeStrings_encodeStrings p.serviceNames []
    simpa using h
  show protoUnmarshalFdp
      (encodeString p.name ++ encodeStrings p.messageNames ++ encodeStrings p.serviceNames) = _
  rw [List.append_assoc]
  simp only [protoUnmarshalFdp, decodeString_encodeString, decodeStrings_encodeStrings, h3,
    if_pos]

/-- C8.  A `FileByFilename` request whose filename is the path of a
registered file descriptor yields a single-entry `FileDescriptorResponse`
whose bytes decode to a descriptor proto whose name is exactly the
requested filename. -/
theorem buildFileByFilename_roundtrip (files : List FileDesc) (host filename : String)
    (h : ∃ fd ∈ files, fd.path = filename) :
    ∃ b, buildFileByFilenameResponse files host filename =
        { validHost := host, messageResponse := .fileDescriptorResponse [b] } ∧
      ∃ p, protoUnmarshalFdp b = some p ∧ p.name = filename := by
  have hsome : (files.find? (fun fd => fd.path == filename)).isSome := by
    rw [List.find?_isSome]
    obtain ⟨fd, hmem, hpath⟩ := h
    exact ⟨fd, hmem, by simp [hpath]⟩
  obtain ⟨fd, hfind⟩ := Option.isSome_iff_exists.mp hsome
  have hpath : fd.path = filename := by
    have := List.find?_some hfind
    simpa using this
  refine ⟨protoMarshalFdp (toFileDescriptorProto fd), ?_, toFileDescriptorProto fd,
    protoUnmarshalFdp_protoMarshalFdp _, hpath⟩
  simp [buildFileByFilenameResponse, lookupFileDescriptorProtoBytes, hfind]

/-- Witness for C8: the fixture registry holding `hello.proto`. -/
theorem buildFileByFilename_roundtrip_witness :
    ∃ b, buildFileByFilenameResponse [helloFile] "h" "hello.proto" =
        { validHost := "h", messageResponse := .fileDescriptorResponse [b] } ∧
      ∃ p, protoUnmarshalFdp b = some p ∧ p.name = "hello.proto" :=
  buildFileByFilename_roundtrip [helloFile] "h" "hello.proto"
    ⟨helloFile, by simp, rfl⟩

/-! ## Properties of the ListServices deduplication -/

/-- The flattened service names of a file list, in enumeration order. -/
def flatServiceNames (files : List FileDesc) : List String :=
  files.flatMap (fun fd => fd.services.map (fun svc => svc.name))

/-- The loop of `buildListServicesResponse` restated as a recursion over
the flattened name list, carrying the `seen` set. -/
def dedupFirstSeen (seen : List String) : List String → List String
  | [] => []
  | n :: rest =>
    if n ∈ seen then dedupFirstSeen seen rest
    else n :: dedupFirstSeen (n :: seen) rest

theorem foldl_listServicesStep_eq (l : List String) (seen acc : List String) :
    (l.foldl listServicesStep (seen, acc)).2 = acc ++ dedupFirstSeen seen l := by
  induction l generalizing seen acc with
  | nil => simp [dedupFirstSeen]
  | cons n rest ih =>
    by_cases hn : n ∈ seen
    · show (rest.foldl listServicesStep (listServicesStep (seen, acc) n)).2 = _
      rw [show listServicesStep (seen, acc) n = (seen, acc) by simp [listServicesStep, hn]]
      rw [ih, dedupFirstSeen, if_pos hn]
    · show (rest.foldl listServicesStep (listServicesStep (seen, acc) n)).2 = _
      rw [show listServicesStep (seen, acc) n = (n :: seen, acc ++ [n]) by
        simp [listServicesStep, hn]]
      rw [ih, dedupFirstSeen, if_neg hn, List.append_assoc]
      rfl

theorem buildListServices_names (files : List FileDesc) (host : String) :
    buildListServicesResponse files host =
      { validHost := host,
        messageResponse := .listServicesResponse
          (dedupFirstSeen [] (flatServiceNames files)) } := by
  have hflat : ∀ (fs : List FileDesc) (st : List String × List String),
      fs.foldl (fun st fd => (fd.services.map (fun svc => svc.name)).foldl listServicesStep st) st =
        (flatServiceNames fs).foldl listServicesStep st := by
    intro fs
    induction fs with
    | nil => intro st; simp [flatServiceNames]
    | cons fd rest ih =>
      intro st
      show rest.foldl _ ((fd.services.map (fun svc => svc.name)).foldl listServicesStep st) = _
      rw [ih]
      have : flatServiceNames (fd :: rest) =
          fd.services.map (fun svc => svc.name) ++ flatServiceNames rest := by
        simp [flatServiceNames]
      rw [this, List.foldl_append]
  simp only [buildListServicesResponse]
  rw [hflat files ([], []), foldl_listServicesStep_eq]
  rfl

theorem mem_dedupFirstSeen (l : List String) (seen : List String) (x : String) :
    x ∈ dedupFirstSeen seen l ↔ x ∈ l ∧ x ∉ seen := by
  induction l generalizing seen with
  | nil => simp [dedupFirstSeen]
  | cons n rest ih =>
    by_cases hn : n ∈ seen
    · rw [dedupFirstSeen, if_pos hn, ih]
      constructor
      · exact fun ⟨hr, hs⟩ => ⟨List.mem_cons_of_mem n hr, hs⟩
      · rintro ⟨hm, hs⟩
        rcases List.mem_cons.mp hm with he | hr
        · exact absurd (he ▸ hn) hs
        · exact ⟨hr, hs⟩
    · rw [dedupFirstSeen, if_neg hn]
      constructor
      · intro hm
        rcases List.mem_cons.mp hm with he | hr
        · exact ⟨he ▸ List.mem_cons_self n rest, he ▸ hn⟩
        · obtain ⟨hrest, hns⟩ := (ih (n :: seen)).mp hr
          exact ⟨List.mem_cons_of_mem n hrest,
            fun hs => hns (List.mem_cons_of_mem n hs)⟩
      · rintro ⟨hm, hs⟩
        rcases List.mem_cons.mp hm with he | hr
        · exact he ▸ List.mem_cons_self n _
        · by_cases he : x = n
          · exact he ▸ List.mem_cons_self n _
          · exact List.mem_cons_of_mem n ((ih (n :: seen)).mpr
              ⟨hr, fun hmem => (List.mem_cons.mp hmem).elim he hs⟩)

theorem nodup_dedupFirstSeen (l : List String) (seen : List String) :
    (dedupFirstSeen seen l).Nodup := by
  induction l generalizing seen with
  | nil => exact List.nodup_nil
  | cons n rest ih =>
    by_cases hn : n ∈ seen
    · rw [dedupFirstSeen, if_pos hn]; exact ih seen
    · rw [dedupFirstSeen, if_neg hn]
      refine List.nodup_cons.mpr ⟨?_, ih (n :: seen)⟩
      intro hmem
      exact ((mem_dedupFirstSeen rest (n :: seen) n).mp hmem).2 (List.mem_cons_self n seen)

theorem pairwise_indexOf_dedupFirstSeen (l : List String) (seen : List String) :
    (dedupFirstSeen seen l).Pairwise (fun a b => l.indexOf a < l.indexOf b) := by
  induction l generalizing seen with
  | nil => exact List.Pairwise.nil
  | cons n rest ih =>
    by_cases hn : n ∈ seen
    · rw [dedupFirstSeen, if_pos hn]
      refine ((ih seen).imp_of_mem ?_)
      intro a b ha hb hlt
      have hna : a ≠ n := fun he =>
        ((mem_dedupFirstSeen rest seen a).mp ha).2 (he ▸ hn)
      have hnb : b ≠ n := fun he =>
        ((mem_dedupFirstSeen rest seen b).mp hb).2 (he ▸ hn)
      rw [List.indexOf_cons_ne rest (Ne.symm hna), List.indexOf_cons_ne rest (Ne.symm hnb)]
      omega
    · rw [dedupFirstSeen, if_neg hn]
      refine List.pairwise_cons.mpr ⟨?_, ?_⟩
      · intro b hb
        have hbne : b ≠ n := fun he =>
          ((mem_dedupFirstSeen rest (n :: seen) b).mp hb).2
            (he ▸ List.mem_cons_self n seen)
        rw [List.indexOf_cons_self, List.indexOf_cons_ne rest (Ne.symm hbne)]
        omega
      · refine ((ih (n :: seen)).imp_of_mem ?_)
        intro a b ha hb hlt
        have hna : a ≠ n := fun he =>
          ((mem_dedupFirstSeen rest (n :: seen) a).mp ha).2
            (he ▸ List.mem_cons_self n seen)
        have hnb : b ≠ n := fun he =>
          ((mem_dedupFirstSeen rest (n :: seen) b).mp hb).2
            (he ▸ List.mem_cons_self n seen)
        rw [List.indexOf_cons_ne rest (Ne.symm hna), List.indexOf_cons_ne rest (Ne.symm hnb)]
        omega

/-- C9.  `ListServices` returns each distinct service full name exactly
once (no duplicates, membership equal to that of the flattened
enumeration) and in first-seen order over the registry's file list: the
returned names are strictly ordered by the index of their first occurrence
in the enumeration. -/
theorem buildListServices_dedup_first_seen (files : List FileDesc) (host : String) :
    ∃ names,
      buildListServicesResponse files host =
        { validHost := host, messageResponse := .listServicesResponse names } ∧
      names.Nodup ∧
      (∀ n, n ∈ names ↔ n ∈ flatServiceNames files) ∧
      names.Pairwise (fun a b =>
        (flatServiceNames files).indexOf a < (flatServiceNames files).indexOf b) := by
  refine ⟨dedupFirstSeen [] (flatServiceNames files), buildListServices_names files host,
    nodup_dedupFirstSeen _ _, ?_, pairwise_indexOf_dedupFirstSeen _ _⟩
  intro n
  rw [mem_dedupFirstSeen]
  simp
